import Mathlib

/-!
Formal model of the Health-Care-Compass application, a hospital search and
cost comparison web app.  The definitions below are shallow embeddings of the
JavaScript source: CSV aggregation (DataService.processHospitalData), search
(DataService.searchHospitals), cost categorisation (DataService.getCostCategory),
geolocation fallback (DataService.getUserLocation), the auth endpoints
(POST /signup, POST /login), pagination (HospitalService.renderHospitals and
HospitalService.renderPagination) and the comparison selection
(HospitalService.toggleCompare).  Numbers are modelled as exact rationals,
JavaScript objects and Maps as insertion-ordered association lists.
-/

namespace HCC

/-- Characterwise model of String.prototype.trim: drop leading and trailing
whitespace.  Implemented over the character list so that it is kernel
computable. -/
def trimChars (l : List Char) : List Char :=
  ((l.dropWhile Char.isWhitespace).reverse.dropWhile Char.isWhitespace).reverse

/-- String.prototype.trim over Lean strings. -/
def strTrim (s : String) : String := ⟨trimChars s.data⟩

/-- Characterwise model of String.prototype.toLowerCase (ASCII range). -/
def strLower (s : String) : String := ⟨s.data.map Char.toLower⟩

/-- Per-treatment statistics, the value stored in hospital.treatments[t]. -/
structure TStat where
  count : Nat
  totalCost : ℚ
  averageCost : ℚ
deriving DecidableEq

/-- A hospital aggregate as built by DataService.processHospitalData.
JavaScript object keys keep insertion order, so the treatments map is an
association list.  The utilization field mirrors
hospital.utilization = hospital.totalCases. -/
structure Hospital where
  NAME : String
  ADDRESS : String
  CITY : String
  treatments : List (String × TStat)
  totalCases : Nat
  totalCost : ℚ
  averageCost : ℚ
  utilization : Nat
deriving DecidableEq

/-- One raw CSV row after parseCSV.  BASE_ENCOUNTER_COST is none when the
field does not parse as a number (parseFloat gives NaN, later coerced to 0
by the expression parseFloat(x) or-else 0). -/
structure Entry where
  NAME : String
  ADDRESS : String
  CITY : String
  DESCRIPTION : String
  BASE_ENCOUNTER_COST : Option ℚ
deriving DecidableEq

/-- The fresh aggregate inserted when a key is first seen
(hospitalMap.set(hospitalKey, { ... })). -/
def freshHospital (e : Entry) : Hospital :=
  { NAME := e.NAME
    ADDRESS := e.ADDRESS
    CITY := e.CITY
    treatments := []
    totalCases := 0
    totalCost := 0
    averageCost := 0
    utilization := 0 }

/-- One treatment update inside processHospitalData: create the slot when
missing, then increment count, add the cost and recompute averageCost. -/
def updateTStat (ts : List (String × TStat)) (t : String) (cost : ℚ) :
    List (String × TStat) :=
  let ts := if (ts.lookup t).isSome then ts else ts ++ [(t, ⟨0, 0, 0⟩)]
  ts.map (fun p =>
    if p.1 = t then
      let c := p.2.count + 1
      let tc := p.2.totalCost + cost
      (p.1, ⟨c, tc, tc / (c : ℚ)⟩)
    else p)

/-- The in-place mutation of one aggregate inside processHospitalData:
fold one row with the given treatment label and cost into the hospital,
recomputing averageCost right after each update. -/
def updateHospital (treatment : String) (cost : ℚ) (h : Hospital) : Hospital :=
  let treatments := updateTStat h.treatments treatment cost
  let totalCases := h.totalCases + 1
  let totalCost := h.totalCost + cost
  { h with
    treatments := treatments
    totalCases := totalCases
    totalCost := totalCost
    averageCost := totalCost / (totalCases : ℚ)
    utilization := totalCases }

/-- Processing of a single CSV row by processHospitalData: rows missing NAME
or CITY are skipped, the map key is NAME ++ "-" ++ CITY, the treatment label
defaults to the sentinel when DESCRIPTION is blank, the cost defaults to 0,
and the keyed aggregate is updated in place. -/
def stepEntry (m : List (String × Hospital)) (e : Entry) :
    List (String × Hospital) :=
  if e.NAME = "" ∨ e.CITY = "" then m
  else
    let key := e.NAME ++ "-" ++ e.CITY
    let treatment := if e.DESCRIPTION = "" then "Unknown Treatment"
      else strTrim e.DESCRIPTION
    let cost := e.BASE_ENCOUNTER_COST.getD 0
    let m := if (m.lookup key).isSome then m else m ++ [(key, freshHospital e)]
    m.map (fun p => if p.1 = key then (p.1, updateHospital treatment cost p.2) else p)

/-- The intermediate aggregation map after folding a list of rows,
mirroring this.rawHospitalEntries.forEach over hospitalMap. -/
def aggregateMap (entries : List Entry) : List (String × Hospital) :=
  entries.foldl stepEntry []

/-- DataService.processHospitalData: fold all rows, then
Array.from(hospitalMap.values()). -/
def processHospitalData (entries : List Entry) : List Hospital :=
  (aggregateMap entries).map Prod.snd

/-- An entry is kept by the aggregator exactly when NAME and CITY are
both non-blank; its map key is then NAME ++ "-" ++ CITY. -/
def validKey (e : Entry) : Option String :=
  if e.NAME = "" ∨ e.CITY = "" then none else some (e.NAME ++ "-" ++ e.CITY)

/-- The keys of the valid rows of a CSV, in row order. -/
def validKeys (entries : List Entry) : List String :=
  entries.filterMap validKey

/-- Does the second character list start with the first? -/
def leadMatch : List Char → List Char → Bool
  | [], _ => true
  | _ :: _, [] => false
  | a :: as, b :: bs => a == b && leadMatch as bs

/-- Does sub occur as a contiguous run inside the second list?  Model of
String.prototype.includes over character lists. -/
def subMatch (sub : List Char) : List Char → Bool
  | [] => leadMatch sub []
  | c :: t => leadMatch sub (c :: t) || subMatch sub t

/-- s.includes(sub) for Lean strings. -/
def strIncludes (s sub : String) : Bool := subMatch sub.data s.data

/-- String.prototype.split(" ") over character lists: split at every single
space, keeping empty pieces, never returning an empty group list. -/
def splitSp : List Char → List (List Char)
  | [] => [[]]
  | c :: rest =>
    match splitSp rest with
    | [] => [[]]
    | g :: gs => if c = ' ' then [] :: g :: gs else (c :: g) :: gs

/-- query.split(" ") for Lean strings. -/
def splitSpaces (s : String) : List String :=
  (splitSp s.data).map (fun l => ⟨l⟩)

/-- The first phase of DataService.searchHospitals: does some search term
occur in the lowercased NAME-space-CITY text of the hospital? -/
def matchesNameCity (terms : List String) (h : Hospital) : Bool :=
  terms.any (fun term => strIncludes (strLower (h.NAME ++ " " ++ h.CITY)) term)

/-- The fallback phase of DataService.searchHospitals: does some search
term occur in some lowercased treatment key of the hospital? -/
def matchesTreatment (terms : List String) (h : Hospital) : Bool :=
  h.treatments.any
    (fun t => terms.any (fun term => strIncludes (strLower t.1) term))

/-- DataService.searchHospitals: a falsy (empty) query returns the whole
list; otherwise lowercase the query, split it on spaces, keep the hospitals
whose name/city text contains some term, and only when none matches fall
back to filtering on treatment keys. -/
def searchHospitals (hospitalsData : List Hospital) (query : String) :
    List Hospital :=
  if query = "" then hospitalsData
  else
    let searchTerms := splitSpaces (strLower query)
    let matchingHospitals := hospitalsData.filter (matchesNameCity searchTerms)
    if 0 < matchingHospitals.length then matchingHospitals
    else hospitalsData.filter (matchesTreatment searchTerms)

/-- A hospital whose name contains the sample query. -/
def exH1 : Hospital :=
  { NAME := "Knee Clinic"
    ADDRESS := ""
    CITY := "X"
    treatments := []
    totalCases := 0
    totalCost := 0
    averageCost := 0
    utilization := 0 }

/-- A hospital that matches the sample query only through a treatment. -/
def exH2 : Hospital :=
  { NAME := "B"
    ADDRESS := ""
    CITY := "Y"
    treatments := [("Knee Replacement", ⟨1, 10, 10⟩)]
    totalCases := 1
    totalCost := 10
    averageCost := 10
    utilization := 1 }

/-- The outcome of a browser geolocation request: the API is missing, a
position arrives, or the error callback fires (denied or timed out). -/
inductive GeoOutcome : Type
  | unsupported : GeoOutcome
  | position (lat lon : ℚ) : GeoOutcome
  | failure : GeoOutcome
deriving DecidableEq

/-- A latitude/longitude pair. -/
structure Coordinates where
  lat : ℚ
  lon : ℚ
deriving DecidableEq

/-- getUserLocation of the part_008 DataService variant: reject when the
geolocation API is unsupported, resolve with the position on success, and
resolve with the default centre-of-US coordinate when the error callback
fires. -/
def getUserLocation : GeoOutcome → Except String Coordinates
  | GeoOutcome.unsupported =>
    Except.error "Geolocation is not supported by your browser"
  | GeoOutcome.position la lo => Except.ok ⟨la, lo⟩
  | GeoOutcome.failure => Except.ok ⟨39.8283, -98.5795⟩

/-- getUserLocation of the data-service.js variant: reject when the API is
unsupported and also reject when the error callback fires; callers catch
the rejection and keep no location. -/
def getUserLocationDS : GeoOutcome → Except String Coordinates
  | GeoOutcome.unsupported =>
    Except.error "Geolocation is not supported by your browser"
  | GeoOutcome.position la lo => Except.ok ⟨la, lo⟩
  | GeoOutcome.failure => Except.error "geolocation error"

/-- The averageCost invariant for one treatments map. -/
def TInv (ts : List (String × TStat)) : Prop :=
  ∀ p ∈ ts, 0 < p.2.count → p.2.averageCost = p.2.totalCost / (p.2.count : ℚ)

/-- The averageCost invariant for one hospital aggregate. -/
def HInv (h : Hospital) : Prop :=
  (0 < h.totalCases → h.averageCost = h.totalCost / (h.totalCases : ℚ)) ∧
    TInv h.treatments

/-- The averageCost invariant over the whole aggregation map. -/
def MapInv (m : List (String × Hospital)) : Prop := ∀ p ∈ m, HInv p.2

/-- The three-row example CSV from the spec:
rows (A, X, Knee, 1000), (A, X, Knee, 2000), (B, Y, Hip, 500). -/
def exRowsC2 : List Entry :=
  [⟨"A", "", "X", "Knee", some 1000⟩,
   ⟨"A", "", "X", "Knee", some 2000⟩,
   ⟨"B", "", "Y", "Hip", some 500⟩]

/-- The aggregate that processHospitalData builds for hospital A of the
three-row example. -/
def exHospitalA : Hospital :=
  { NAME := "A"
    ADDRESS := ""
    CITY := "X"
    treatments := [("Knee", ⟨2, 3000, 1500⟩)]
    totalCases := 2
    totalCost := 3000
    averageCost := 1500
    utilization := 2 }

/-- The Mongo user collection of the auth backend: email and stored
(hashed) password, in insertion order.  The schema marks email unique. -/
abbrev UserDb := List (String × String)

/-- User.findOne({email}): the first stored user with the given email. -/
def findOne (db : UserDb) (email : String) : Option (String × String) :=
  db.find? (fun u => u.1 == email)

/-- A sample deterministic stand-in for bcrypt.hash, used for witnesses. -/
def exHash (s : String) : String := s ++ "-hashed"

/-- The POST /signup handler: look the email up, answer 400 when it exists,
otherwise hash the password, store the new user and answer 201.  The
try/catch wrapper answers 500 when a database operation throws; the two
Bool flags say whether findOne respectively save throw. -/
def signup (hash : String → String) (findFails saveFails : Bool)
    (db : UserDb) (email password : String) : Nat × UserDb :=
  if findFails then (500, db)
  else match findOne db email with
    | some _ => (400, db)
    | none =>
      if saveFails then (500, db)
      else (201, db ++ [(email, hash password)])

/-- The POST /login handler: look the email up, answer 401 when the user is
missing, otherwise bcrypt-compare the password against the stored hash and
answer 200 with the stored email on a match, 401 otherwise; the try/catch
wrapper answers 500 when findOne or the comparison throws.  The second
component is the email field of the success payload, the third the (never
modified) user collection. -/
def login (compare : String → String → Bool) (findFails compareFails : Bool)
    (db : UserDb) (email password : String) : Nat × Option String × UserDb :=
  if findFails then (500, none, db)
  else match findOne db email with
    | none => (401, none, db)
    | some u =>
      if compareFails then (500, none, db)
      else if compare password u.2 then (200, some u.1, db)
      else (401, none, db)

/-- A sample stand-in for bcrypt.compare matching exHash, for witnesses. -/
def exCompare (password stored : String) : Bool :=
  (password ++ "-hashed") == stored

/-- HospitalService.renderHospitals page slice:
filteredHospitals.slice((currentPage - 1) * itemsPerPage,
(currentPage - 1) * itemsPerPage + itemsPerPage). -/
def renderPage {α : Type} (filtered : List α) (itemsPerPage currentPage : Nat) :
    List α :=
  (filtered.drop ((currentPage - 1) * itemsPerPage)).take itemsPerPage

/-- Math.ceil(n / itemsPerPage) over naturals. -/
def totalPagesOf (n itemsPerPage : Nat) : Nat :=
  (n + itemsPerPage - 1) / itemsPerPage

/-- The page-number window of HospitalService.renderPagination
(maxVisiblePages = 5, halfMax = 2): all pages when they fit, else a block
of five clamped to the start, the end, or centred on the current page. -/
def pageWindow (totalPages currentPage : Nat) : Nat × Nat :=
  if totalPages ≤ 5 then (1, totalPages)
  else if currentPage ≤ 2 then (1, 5)
  else if totalPages ≤ currentPage + 2 then (totalPages - 4, totalPages)
  else (currentPage - 2, currentPage + 2)

/-- renderPagination renders no controls when totalPages ≤ 1, otherwise the
window of visible page numbers. -/
def renderPaginationWindow (n itemsPerPage currentPage : Nat) :
    Option (Nat × Nat) :=
  let totalPages := totalPagesOf n itemsPerPage
  if totalPages ≤ 1 then none
  else some (pageWindow totalPages currentPage)

/-- A seven-element hospital list for pagination witnesses. -/
def exHospList : List Hospital :=
  List.replicate 7 (freshHospital ⟨"A", "", "X", "", none⟩)

/-- The comparison key of HospitalService.toggleCompare:
NAME ++ "-" ++ CITY. -/
def hospitalKey (h : Hospital) : String := h.NAME ++ "-" ++ h.CITY

/-- HospitalService.toggleCompare: findIndex of the first selected hospital
with the same key; when none matches, refuse when three hospitals are
already selected (alert, selection unchanged), else push; when one matches,
splice exactly that entry out.  findIndex followed by splice(index, 1)
removes the first match, embedded as eraseP. -/
def toggleCompare (sel : List Hospital) (h : Hospital) : List Hospital :=
  if sel.any (fun x => hospitalKey x == hospitalKey h) then
    sel.eraseP (fun x => hospitalKey x == hospitalKey h)
  else if 3 ≤ sel.length then sel
  else sel ++ [h]

/-- The selection-set invariant: no two selected hospitals share a
(name, city) key. -/
def NodupKeys (sel : List Hospital) : Prop := (sel.map hospitalKey).Nodup

/-- Sample hospitals with pairwise distinct keys, for witnesses. -/
def selA : Hospital := freshHospital ⟨"A", "", "X", "", none⟩

def selB : Hospital := freshHospital ⟨"B", "", "X", "", none⟩

def selC : Hospital := freshHospital ⟨"C", "", "X", "", none⟩

def selD : Hospital := freshHospital ⟨"D", "", "X", "", none⟩

/-- DataService.getCostCategory: medium when the cost is null/undefined or
no comparison costs exist; otherwise drop null entries, sort ascending,
read off the lowest and highest cost, answer medium when they coincide,
and otherwise place thresholds at 33 percent and 66 percent of the range:
low when cost ≤ lowThreshold, high when cost ≥ highThreshold, else medium.
The JavaScript number literals 0.33 and 0.66 are modelled as the exact
rationals 33/100 and 66/100. -/
def getCostCategory (cost : Option ℚ) (allCosts : List (Option ℚ)) : String :=
  match cost with
  | none => "medium"
  | some c =>
    if allCosts.length = 0 then "medium"
    else
      let validCosts := allCosts.filterMap id
      if validCosts.length = 0 then "medium"
      else
        let sortedCosts := List.insertionSort (· ≤ ·) validCosts
        let lowestCost := sortedCosts.headD 0
        let highestCost := sortedCosts.getLastD 0
        if lowestCost = highestCost then "medium"
        else
          let range := highestCost - lowestCost
          let lowThreshold := lowestCost + range * (33 / 100)
          let highThreshold := lowestCost + range * (66 / 100)
          if c ≤ lowThreshold then "low"
          else if highThreshold ≤ c then "high"
          else "medium"

theorem tinv_updateTStat {ts : List (String × TStat)} {t : String} {cost : ℚ}
    (hts : TInv ts) : TInv (updateTStat ts t cost) := by
  intro p hp
  simp only [updateTStat] at hp
  rcases List.mem_map.1 hp with ⟨q, hq, hpq⟩
  by_cases hqt : q.1 = t
  · rw [← hpq, if_pos hqt]
    intro _
    norm_cast
  · rw [← hpq, if_neg hqt]
    intro hc
    by_cases hl : (ts.lookup t).isSome = true
    · rw [if_pos hl] at hq
      exact hts q hq hc
    · rw [if_neg hl] at hq
      rcases List.mem_append.1 hq with h1 | h1
      · exact hts q h1 hc
      · rcases List.mem_singleton.1 h1 with rfl
        exact absurd rfl hqt

theorem hinv_updateHospital {h : Hospital} (treatment : String) (cost : ℚ)
    (hh : TInv h.treatments) : HInv (updateHospital treatment cost h) :=
  ⟨fun _ => by norm_cast, tinv_updateTStat hh⟩

theorem hinv_freshHospital (e : Entry) : HInv (freshHospital e) := by
  refine ⟨fun hc => absurd hc (by simp [freshHospital]), fun p hp => ?_⟩
  simp [freshHospital] at hp

theorem mapinv_stepEntry {m : List (String × Hospital)} (e : Entry)
    (hm : MapInv m) : MapInv (stepEntry m e) := by
  intro p hp
  simp only [stepEntry] at hp
  split at hp
  · exact hm p hp
  · rcases List.mem_map.1 hp with ⟨q, hq, hpq⟩
    have hq2 : HInv q.2 := by
      by_cases hl : ((m.lookup (e.NAME ++ "-" ++ e.CITY)).isSome = true)
      · rw [if_pos hl] at hq
        exact hm q hq
      · rw [if_neg hl] at hq
        rcases List.mem_append.1 hq with h1 | h1
        · exact hm q h1
        · rcases List.mem_singleton.1 h1 with rfl
          exact hinv_freshHospital e
    by_cases hqk : q.1 = e.NAME ++ "-" ++ e.CITY
    · rw [← hpq, if_pos hqk]
      exact hinv_updateHospital _ _ hq2.2
    · rw [← hpq, if_neg hqk]
      exact hq2

theorem mapinv_nil : MapInv [] := by
  intro p hp
  exact absurd hp (List.not_mem_nil p)

theorem mapinv_foldl (es : List Entry) :
    ∀ m, MapInv m → MapInv (es.foldl stepEntry m) := by
  induction es with
  | nil => exact fun m hm => hm
  | cons e es ih => exact fun m hm => ih _ (mapinv_stepEntry e hm)

/-- C1: for every CSV input, after aggregation completes and after each
per-row update during aggregation (i.e. after folding any prefix of the
rows), every hospital aggregate with totalCases > 0 has
averageCost = totalCost / totalCases, and every per-treatment entry with
count > 0 has averageCost = totalCost / count. -/
theorem c1_averageCost_invariant (entries : List Entry) (n : Nat) :
    MapInv (aggregateMap (entries.take n)) ∧
      ∀ h ∈ processHospitalData entries, HInv h := by
  constructor
  · exact mapinv_foldl _ [] mapinv_nil
  · intro h hh
    rcases List.mem_map.1 hh with ⟨p, hp, rfl⟩
    exact mapinv_foldl _ [] mapinv_nil p hp

theorem c1_averageCost_invariant_witness :
    MapInv (aggregateMap (exRowsC2.take 2)) ∧ HInv exHospitalA :=
  ⟨(c1_averageCost_invariant exRowsC2 2).1,
   (c1_averageCost_invariant exRowsC2 3).2 exHospitalA (by
    norm_num +decide [processHospitalData, aggregateMap, stepEntry,
      updateHospital, updateTStat, freshHospital, exRowsC2, exHospitalA,
      List.lookup, strTrim, trimChars])⟩

theorem lookup_isSome_iff {α : Type} (m : List (String × α)) (k : String) :
    ((m.lookup k).isSome = true) ↔ k ∈ m.map Prod.fst := by
  induction m with
  | nil => simp
  | cons p m ih =>
    cases p with
    | mk k' v =>
      by_cases h : k = k'
      · subst h
        simp [List.lookup]
      · have hb : (k == k') = false := beq_eq_false_iff_ne.2 h
        show (match k == k' with
          | true => some v
          | false => List.lookup k m).isSome = true ↔ _
        rw [hb]
        rw [List.map_cons, List.mem_cons, ih]
        exact ⟨Or.inr, fun h' => h'.elim (fun he => absurd he h) id⟩

theorem keys_map_update {β : Type} (m' : List (String × β)) (key : String)
    (f : β → β) :
    (m'.map (fun p => if p.1 = key then (p.1, f p.2) else p)).map Prod.fst =
      m'.map Prod.fst := by
  rw [List.map_map]
  congr 1
  funext p
  by_cases h : p.1 = key <;> simp [h]

theorem keys_stepEntry (m : List (String × Hospital)) (e : Entry) :
    (stepEntry m e).map Prod.fst =
      if e.NAME = "" ∨ e.CITY = "" then m.map Prod.fst
      else if (m.lookup (e.NAME ++ "-" ++ e.CITY)).isSome = true then
        m.map Prod.fst
      else m.map Prod.fst ++ [e.NAME ++ "-" ++ e.CITY] := by
  by_cases hv : e.NAME = "" ∨ e.CITY = ""
  · simp only [stepEntry, if_pos hv]
  · simp only [stepEntry, if_neg hv]
    rw [keys_map_update]
    by_cases hl : (m.lookup (e.NAME ++ "-" ++ e.CITY)).isSome = true
    · rw [if_pos hl, if_pos hl]
    · rw [if_neg hl, if_neg hl, List.map_append]
      rfl

theorem mem_keys_stepEntry (m : List (String × Hospital)) (e : Entry)
    (k : String) :
    (k ∈ (stepEntry m e).map Prod.fst) ↔
      (k ∈ m.map Prod.fst ∨ validKey e = some k) := by
  rw [keys_stepEntry]
  by_cases hv : e.NAME = "" ∨ e.CITY = ""
  · simp [hv, validKey]
  · rw [if_neg hv]
    by_cases hl : (m.lookup (e.NAME ++ "-" ++ e.CITY)).isSome = true
    · rw [if_pos hl]
      have hk := (lookup_isSome_iff m _).1 hl
      simp only [validKey, if_neg hv, Option.some_inj]
      exact ⟨Or.inl, fun h => h.elim id (fun hk' => hk' ▸ hk)⟩
    · rw [if_neg hl]
      simp only [validKey, if_neg hv, Option.some_inj, List.mem_append,
        List.mem_singleton]
      exact ⟨fun h => h.imp id Eq.symm, fun h => h.imp id Eq.symm⟩

theorem nodup_keys_stepEntry (m : List (String × Hospital)) (e : Entry)
    (hm : (m.map Prod.fst).Nodup) : ((stepEntry m e).map Prod.fst).Nodup := by
  rw [keys_stepEntry]
  by_cases hv : e.NAME = "" ∨ e.CITY = ""
  · rwa [if_pos hv]
  · rw [if_neg hv]
    by_cases hl : (m.lookup (e.NAME ++ "-" ++ e.CITY)).isSome = true
    · rwa [if_pos hl]
    · rw [if_neg hl]
      have hnot : ¬ (e.NAME ++ "-" ++ e.CITY) ∈ m.map Prod.fst :=
        fun hk => hl ((lookup_isSome_iff _ _).2 hk)
      simp [List.nodup_append, hm, hnot]

theorem nodup_keys_foldl (es : List Entry) :
    ∀ m, (m.map Prod.fst).Nodup →
      (((es.foldl stepEntry m)).map Prod.fst).Nodup := by
  induction es with
  | nil => exact fun m hm => hm
  | cons e es ih => exact fun m hm => ih _ (nodup_keys_stepEntry m e hm)

theorem mem_keys_foldl (es : List Entry) :
    ∀ m k, (k ∈ (es.foldl stepEntry m).map Prod.fst) ↔
      (k ∈ m.map Prod.fst ∨ k ∈ validKeys es) := by
  induction es with
  | nil => simp [validKeys]
  | cons e es ih =>
    intro m k
    rw [List.foldl_cons, ih, mem_keys_stepEntry]
    rcases h : validKey e with _ | k0
    · simp [validKeys, List.filterMap_cons, h]
    · simp only [validKeys, List.filterMap_cons, h, Option.some_inj,
        List.mem_cons]
      constructor
      · rintro ((hk | rfl) | hk)
        · exact Or.inl hk
        · exact Or.inr (Or.inl rfl)
        · exact Or.inr (Or.inr hk)
      · rintro (hk | (rfl | hk))
        · exact Or.inl (Or.inl hk)
        · exact Or.inl (Or.inr rfl)
        · exact Or.inr hk

/-- C2 (amended): aggregation is keyed by the joined string
NAME ++ "-" ++ CITY.  Any two valid rows with identical NAME and CITY get
the same key and are folded into the same single aggregate: the aggregation
map holds exactly one aggregate per distinct key occurring among the valid
rows (its key list has no duplicates, and a key occurs in it exactly when
some valid row produces it).  The three-row example
[(A, X, Knee, 1000), (A, X, Knee, 2000), (B, Y, Hip, 500)] yields two
aggregates, A with averageCost 1500 and totalCases 2, and B with
averageCost 500 and totalCases 1. -/
theorem c2_key_stability (entries : List Entry) :
    ((aggregateMap entries).map Prod.fst).Nodup ∧
      (∀ k, (k ∈ (aggregateMap entries).map Prod.fst) ↔ k ∈ validKeys entries) ∧
      (processHospitalData exRowsC2).map
          (fun h => (h.NAME, h.averageCost, h.totalCases)) =
        [("A", 1500, 2), ("B", 500, 1)] := by
  refine ⟨nodup_keys_foldl entries [] (by simp), fun k => ?_, ?_⟩
  · rw [aggregateMap, mem_keys_foldl]
    simp
  · norm_num +decide [processHospitalData, aggregateMap, stepEntry,
      updateHospital, updateTStat, freshHospital, exRowsC2, List.lookup,
      strTrim, trimChars]

/-- C2 counterexample: the rows (NAME A-B, CITY C) and (NAME A, CITY B-C)
carry distinct (name, city) pairs, yet the aggregator folds them into a
single aggregate because both joined keys are the string A-B-C; so the
aggregator does not produce one aggregate per distinct (name, city) pair. -/
theorem c2_key_collision_counterexample :
    (processHospitalData
        [⟨"A-B", "", "C", "T", some 1⟩, ⟨"A", "", "B-C", "T", some 1⟩]).length
        = 1 ∧
      (("A-B", "C") : String × String) ≠ ("A", "B-C") :=
  ⟨by decide, by decide⟩

/-- C3: a signup request for an already registered email answers 400 and
leaves the user collection unchanged; a signup for a fresh email (with no
database fault) answers 201 and appends a user whose password field is the
hash of the supplied password; every other outcome answers 500. -/
theorem c3_signup_behaviour (hash : String → String) (ff sf : Bool)
    (db : UserDb) (email password : String) :
    (ff = false → (findOne db email).isSome = true →
      signup hash ff sf db email password = (400, db)) ∧
    (ff = false → sf = false → findOne db email = none →
      signup hash ff sf db email password =
        (201, db ++ [(email, hash password)])) ∧
    ((signup hash ff sf db email password).1 ≠ 400 →
      (signup hash ff sf db email password).1 ≠ 201 →
      (signup hash ff sf db email password).1 = 500) := by
  refine ⟨?_, ?_, ?_⟩
  · rintro rfl hs
    rcases h : findOne db email with _ | u
    · rw [h] at hs
      simp at hs
    · simp [signup, h]
  · rintro rfl rfl h
    simp [signup, h]
  · cases ff with
    | true => intro _ _; simp [signup]
    | false =>
      rcases h : findOne db email with _ | u
      · cases sf with
        | true => intro _ _; simp [signup, h]
        | false => intro _ h2; exact absurd (by simp [signup, h]) h2
      · intro h1 _
        exact absurd (by simp [signup, h]) h1

theorem c3_signup_witness :
    signup exHash false false [("a", "x")] "a" "p" = (400, [("a", "x")]) ∧
      signup exHash false false [("a", "x")] "b" "p" =
        (201, [("a", "x"), ("b", "p-hashed")]) :=
  ⟨(c3_signup_behaviour exHash false false [("a", "x")] "a" "p").1 rfl
      (by decide),
   (c3_signup_behaviour exHash false false [("a", "x")] "b" "p").2.1 rfl rfl
      (by decide)⟩

/-- C4: with no database fault, login answers 200 exactly when a user with
the given email exists and the password bcrypt-compares equal with the
stored hash, and the success payload carries that email; when the user is
missing or the comparison fails it answers 401, any other outcome is 500,
and the user collection is never modified. -/
theorem c4_login_behaviour (compare : String → String → Bool) (ff cf : Bool)
    (db : UserDb) (email password : String) :
    (ff = false → cf = false →
      ((login compare ff cf db email password).1 = 200 ↔
        ∃ u, findOne db email = some u ∧ compare password u.2 = true)) ∧
    (ff = false → cf = false →
      (login compare ff cf db email password).1 = 200 →
      (login compare ff cf db email password).2.1 = some email) ∧
    (ff = false → cf = false →
      (findOne db email = none ∨
        (∃ u, findOne db email = some u ∧ compare password u.2 = false)) →
      (login compare ff cf db email password).1 = 401) ∧
    ((login compare ff cf db email password).1 ≠ 200 →
      (login compare ff cf db email password).1 ≠ 401 →
      (login compare ff cf db email password).1 = 500) ∧
    (login compare ff cf db email password).2.2 = db := by
  refine ⟨?_, ?_, ?_, ?_, ?_⟩
  · rintro rfl rfl
    rcases h : findOne db email with _ | u
    · simp [login, h]
    · by_cases hc : compare password u.2 = true
      · simp [login, h, hc]
      · simp [login, h, hc]
  · rintro rfl rfl
    rcases h : findOne db email with _ | u
    · simp [login, h]
    · by_cases hc : compare password u.2 = true
      · intro _
        have he : u.1 = email := by
          have := List.find?_some h
          simpa using this
        simp [login, h, hc, he]
      · simp [login, h, hc]
  · rintro rfl rfl hmiss
    rcases hmiss with hnone | ⟨u, hu, hc⟩
    · simp [login, hnone]
    · simp [login, hu, hc]
  · cases ff with
    | true => intro _ _; simp [login]
    | false =>
      rcases h : findOne db email with _ | u
      · intro _ h2; exact absurd (by simp [login, h]) h2
      · cases cf with
        | true => intro _ _; simp [login, h]
        | false =>
          by_cases hc : compare password u.2 = true
          · intro h1 _; exact absurd (by simp [login, h, hc]) h1
          · intro _ h2; exact absurd (by simp [login, h, hc]) h2
  · cases ff with
    | true => simp [login]
    | false =>
      rcases h : findOne db email with _ | u
      · simp [login, h]
      · cases cf with
        | true => simp [login, h]
        | false =>
          by_cases hc : compare password u.2 = true
          · simp [login, h, hc]
          · simp [login, h, hc]

theorem c4_login_witness :
    ((login exCompare false false [("a", "p-hashed")] "a" "p").1 = 200 ↔
      ∃ u, findOne [("a", "p-hashed")] "a" = some u ∧
        exCompare "p" u.2 = true) ∧
      (login exCompare false false [("a", "p-hashed")] "b" "p").1 = 401 ∧
      (login exCompare false false [("a", "p-hashed")] "a" "wrong").1 = 401 ∧
      (login exCompare false false [("a", "p-hashed")] "a" "p").2.2 =
        [("a", "p-hashed")] :=
  ⟨(c4_login_behaviour exCompare false false [("a", "p-hashed")] "a" "p").1
      rfl rfl,
   (c4_login_behaviour exCompare false false [("a", "p-hashed")] "b" "p").2.2.1
      rfl rfl (Or.inl (by decide)),
   (c4_login_behaviour exCompare false false
      [("a", "p-hashed")] "a" "wrong").2.2.1 rfl rfl
      (Or.inr ⟨("a", "p-hashed"), by decide, by decide⟩),
   (c4_login_behaviour exCompare false false
      [("a", "p-hashed")] "a" "p").2.2.2.2⟩

theorem pageWindow_bounds (tp cp : Nat) (h2 : 2 ≤ tp) (hcp : 1 ≤ cp) :
    1 ≤ (pageWindow tp cp).1 ∧ (pageWindow tp cp).1 ≤ (pageWindow tp cp).2 ∧
      (pageWindow tp cp).2 ≤ tp ∧
      (pageWindow tp cp).2 + 1 - (pageWindow tp cp).1 ≤ 5 := by
  unfold pageWindow
  split_ifs <;> dsimp <;> omega

/-- C5: for a filtered list of length n, page size s and current page
p ≥ 1, the rendered page is exactly the slice from index (p-1)s up to
(but excluding) ps, so it never holds more than s items, and the last page
p = ceil(n/s) holds the remaining n - (p-1)s items; the pagination controls
show a window of at most five consecutive page numbers lying inside
[1, ceil(n/s)]. -/
theorem c5_render_pagination (l : List Hospital) (s p : Nat) (hs : 0 < s)
    (hp : 1 ≤ p) :
    renderPage l s p = (l.drop ((p - 1) * s)).take (p * s - (p - 1) * s) ∧
      (renderPage l s p).length ≤ s ∧
      (1 ≤ l.length → p = totalPagesOf l.length s →
        (renderPage l s p).length = l.length - (p - 1) * s) ∧
      (∀ n cp a b, 1 ≤ cp → renderPaginationWindow n s cp = some (a, b) →
        1 ≤ a ∧ a ≤ b ∧ b ≤ totalPagesOf n s ∧ b + 1 - a ≤ 5) := by
  have harith : p * s - (p - 1) * s = s := by
    obtain ⟨q, rfl⟩ : ∃ q, p = q + 1 := ⟨p - 1, by omega⟩
    simp [Nat.succ_mul]
  refine ⟨by rw [renderPage, harith], ?_, ?_, ?_⟩
  · simp only [renderPage, List.length_take, List.length_drop]
    omega
  · intro hn hp2
    rw [totalPagesOf] at hp2
    have h1 : s * ((l.length + s - 1) / s) + (l.length + s - 1) % s =
        l.length + s - 1 := Nat.div_add_mod _ _
    rw [← hp2] at h1
    have h2 : (l.length + s - 1) % s < s := Nat.mod_lt _ hs
    have hsub : (p - 1) * s = s * p - s := by
      rw [Nat.sub_mul, one_mul, Nat.mul_comm]
    simp only [renderPage, List.length_take, List.length_drop, hsub]
    set sp := s * p with hsp
    set r := (l.length + s - 1) % s with hr
    omega
  · intro n cp a b hcp hw
    simp only [renderPaginationWindow] at hw
    split at hw
    · exact absurd hw (by simp)
    · rename_i htp
      have hab : pageWindow (totalPagesOf n s) cp = (a, b) :=
        Option.some_inj.1 hw
      have hb := pageWindow_bounds (totalPagesOf n s) cp (by omega) hcp
      rw [hab] at hb
      exact hb

theorem c5_render_pagination_witness :
    (renderPage exHospList 5 2).length ≤ 5 ∧
      (renderPage exHospList 5 2).length = exHospList.length - (2 - 1) * 5 ∧
      (1 ≤ 1 ∧ 1 ≤ 2 ∧ 2 ≤ totalPagesOf 7 5 ∧ 2 + 1 - 1 ≤ 5) :=
  ⟨(c5_render_pagination exHospList 5 2 (by decide) (by decide)).2.1,
   (c5_render_pagination exHospList 5 2 (by decide) (by decide)).2.2.1
     (by decide) (by decide),
   (c5_render_pagination exHospList 5 2 (by decide) (by decide)).2.2.2
     7 2 1 2 (by decide) (by decide)⟩

theorem eraseP_eq_filter_of_nodupKeys (sel : List Hospital) (k : String)
    (hn : (sel.map hospitalKey).Nodup) :
    sel.eraseP (fun x => hospitalKey x == k) =
      sel.filter (fun x => !(hospitalKey x == k)) := by
  induction sel with
  | nil => rfl
  | cons x xs ih =>
    rw [List.map_cons, List.nodup_cons] at hn
    cases hx : hospitalKey x == k with
    | true =>
      have hxk : hospitalKey x = k := beq_iff_eq.1 hx
      have hall : ∀ y ∈ xs, (!(hospitalKey y == k)) = true := by
        intro y hy
        have hne : hospitalKey y ≠ k := by
          intro he
          exact hn.1 (by rw [hxk, ← he]; exact List.mem_map_of_mem hospitalKey hy)
        simp [hne]
      simp only [List.eraseP_cons, List.filter_cons, hx, cond_true,
        Bool.not_true, if_neg (by simp : ¬(false = true))]
      rw [List.filter_eq_self.2 hall]
    | false =>
      simp only [List.eraseP_cons, List.filter_cons, hx, cond_false,
        Bool.not_false]
      rw [ih hn.2, if_pos trivial]

theorem toggleCompare_inv (sel : List Hospital) (h : Hospital)
    (hn : NodupKeys sel) (hlen : sel.length ≤ 3) :
    NodupKeys (toggleCompare sel h) ∧ (toggleCompare sel h).length ≤ 3 := by
  unfold toggleCompare
  split_ifs with h1 h2
  · have hs : List.Sublist
        (sel.eraseP (fun x => hospitalKey x == hospitalKey h)) sel :=
      List.eraseP_sublist sel
    exact ⟨(hs.map hospitalKey).nodup hn, le_trans hs.length_le hlen⟩
  · exact ⟨hn, hlen⟩
  · refine ⟨?_, by simp; omega⟩
    have hn' : (sel.map hospitalKey).Nodup := hn
    unfold NodupKeys
    rw [List.map_append]
    have hfresh : hospitalKey h ∉ sel.map hospitalKey := by
      intro hk
      rcases List.mem_map.1 hk with ⟨x, hx, he⟩
      exact h1 (List.any_eq_true.2 ⟨x, hx, by rw [he, beq_self_eq_true]⟩)
    simp [List.nodup_append, hn', hfresh]

theorem toggle_foldl_inv (calls : List Hospital) :
    ∀ sel, NodupKeys sel → sel.length ≤ 3 →
      NodupKeys (calls.foldl toggleCompare sel) ∧
        (calls.foldl toggleCompare sel).length ≤ 3 := by
  induction calls with
  | nil => exact fun sel hn hl => ⟨hn, hl⟩
  | cons c calls ih =>
    intro sel hn hl
    have hstep := toggleCompare_inv sel c hn hl
    exact ih _ hstep.1 hstep.2

/-- C6: the comparison selection is a bounded ordered collection without
duplicate (name, city) keys: toggling a hospital whose key is already
selected removes exactly that hospital; toggling a fresh hospital appends
it when fewer than three are selected and leaves the selection unchanged
when it is full; and after any sequence of toggleCompare calls starting
from the empty selection, the selection holds at most three hospitals and
never two with the same key. -/
theorem c6_toggleCompare_selection (sel : List Hospital) (h : Hospital) :
    (NodupKeys sel → (∃ x ∈ sel, hospitalKey x = hospitalKey h) →
      toggleCompare sel h =
        sel.filter (fun x => !(hospitalKey x == hospitalKey h))) ∧
    ((∀ x ∈ sel, hospitalKey x ≠ hospitalKey h) → sel.length < 3 →
      toggleCompare sel h = sel ++ [h]) ∧
    ((∀ x ∈ sel, hospitalKey x ≠ hospitalKey h) → 3 ≤ sel.length →
      toggleCompare sel h = sel) ∧
    (∀ calls : List Hospital,
      NodupKeys (calls.foldl toggleCompare []) ∧
        (calls.foldl toggleCompare []).length ≤ 3) := by
  refine ⟨?_, ?_, ?_, ?_⟩
  · intro hn hex
    have hany : sel.any (fun x => hospitalKey x == hospitalKey h) = true := by
      rcases hex with ⟨x, hx, he⟩
      exact List.any_eq_true.2 ⟨x, hx, by rw [he, beq_self_eq_true]⟩
    rw [toggleCompare, if_pos hany]
    exact eraseP_eq_filter_of_nodupKeys sel (hospitalKey h) hn
  · intro hno hlt
    have hany : sel.any (fun x => hospitalKey x == hospitalKey h) = false := by
      rw [List.any_eq_false]
      intro x hx
      simp [hno x hx]
    rw [toggleCompare, if_neg (by simp [hany]), if_neg (by omega)]
  · intro hno hge
    have hany : sel.any (fun x => hospitalKey x == hospitalKey h) = false := by
      rw [List.any_eq_false]
      intro x hx
      simp [hno x hx]
    rw [toggleCompare, if_neg (by simp [hany]), if_pos hge]
  · intro calls
    exact toggle_foldl_inv calls [] (by simp [NodupKeys]) (by simp)

theorem c6_toggleCompare_selection_witness :
    toggleCompare [selA] selA =
        [selA].filter (fun x => !(hospitalKey x == hospitalKey selA)) ∧
      toggleCompare [selA] selB = [selA] ++ [selB] ∧
      toggleCompare [selA, selB, selC] selD = [selA, selB, selC] ∧
      (NodupKeys ([selA, selB].foldl toggleCompare []) ∧
        ([selA, selB].foldl toggleCompare []).length ≤ 3) :=
  ⟨(c6_toggleCompare_selection [selA] selA).1 (by unfold NodupKeys; decide)
     (by decide),
   (c6_toggleCompare_selection [selA] selB).2.1 (by decide) (by decide),
   (c6_toggleCompare_selection [selA, selB, selC] selD).2.2.1 (by decide)
     (by decide),
   (c6_toggleCompare_selection [] selA).2.2.2 [selA, selB]⟩

theorem getLastD_mem : ∀ (l : List ℚ) (d : ℚ), l ≠ [] → l.getLastD d ∈ l := by
  intro l
  induction l with
  | nil => intro d h; exact absurd rfl h
  | cons a t ih =>
    intro d _
    rw [List.getLastD_cons]
    cases t with
    | nil => simp
    | cons b t' => exact List.mem_cons_of_mem a (ih a (by simp))

theorem sorted_getLastD_ge :
    ∀ (l : List ℚ) (d : ℚ), List.Sorted (· ≤ ·) l →
      ∀ x ∈ l, x ≤ l.getLastD d := by
  intro l
  induction l with
  | nil => simp
  | cons a t ih =>
    intro d hs x hx
    rw [List.getLastD_cons]
    cases t with
    | nil =>
      simp at hx
      simp [hx]
    | cons b t' =>
      rcases List.mem_cons.1 hx with rfl | hx'
      · have hab : x ≤ b := List.rel_of_sorted_cons hs b (by simp)
        have hbl : b ≤ (b :: t').getLastD x :=
          ih x hs.of_cons b (by simp)
        exact le_trans hab hbl
      · exact ih a hs.of_cons x hx'

/-- C10: getCostCategory is total and answers medium in every degenerate
case: null cost, empty comparison list, comparison list holding only null
entries, and all valid comparison costs equal (zero range). -/
theorem c10_getCostCategory_defaults (cost : Option ℚ)
    (allCosts : List (Option ℚ)) :
    getCostCategory none allCosts = "medium" ∧
      getCostCategory cost [] = "medium" ∧
      (allCosts.filterMap id = [] → getCostCategory cost allCosts = "medium") ∧
      (∀ v : ℚ, allCosts.filterMap id ≠ [] →
        (∀ x ∈ allCosts.filterMap id, x = v) →
        getCostCategory cost allCosts = "medium") := by
  refine ⟨rfl, ?_, ?_, ?_⟩
  · cases cost with
    | none => rfl
    | some c => rfl
  · intro h
    cases cost with
    | none => rfl
    | some c => simp [getCostCategory, h]
  · intro v hne hall
    cases cost with
    | none => rfl
    | some c =>
      have hlen2 : (allCosts.filterMap id).length ≠ 0 := by
        intro h0
        exact hne (List.length_eq_zero.1 h0)
      by_cases hlen : allCosts.length = 0
      · have h0 := List.length_eq_zero.1 hlen
        subst h0
        exact absurd rfl hne
      · simp only [getCostCategory, if_neg hlen, if_neg hlen2]
        have hperm : List.Perm
            (List.insertionSort (· ≤ ·) (allCosts.filterMap id))
            (allCosts.filterMap id) := List.perm_insertionSort _ _
        have hsall : ∀ x ∈ List.insertionSort (· ≤ ·) (allCosts.filterMap id),
            x = v := fun x hx => hall x (hperm.subset hx)
        have hsnil : List.insertionSort (· ≤ ·) (allCosts.filterMap id) ≠ [] := by
          intro h0
          rw [h0] at hperm
          exact hne hperm.symm.eq_nil
        obtain ⟨a, t, hat⟩ := List.exists_cons_of_ne_nil hsnil
        have hhead : (List.insertionSort (· ≤ ·)
            (allCosts.filterMap id)).headD 0 = v := by
          rw [hat, List.headD_cons]
          exact hsall a (by rw [hat]; simp)
        have hlast : (List.insertionSort (· ≤ ·)
            (allCosts.filterMap id)).getLastD 0 = v :=
          hsall _ (getLastD_mem _ 0 hsnil)
        rw [hhead, hlast, if_pos rfl]

theorem c10_getCostCategory_defaults_witness :
    getCostCategory (some 5) [none] = "medium" ∧
      getCostCategory (some 5) [some 3, some 3] = "medium" :=
  ⟨(c10_getCostCategory_defaults (some 5) [none]).2.2.1 rfl,
   (c10_getCostCategory_defaults (some 5) [some 3, some 3]).2.2.2 3
     (by decide) (by decide)⟩

/-- C7 counterexample: for the selection costs 0, 33.2 and 100, the cost
33.2 lies in the lowest third of the range [0, 100] (33.2 < 100/3), yet
getCostCategory answers medium, not low: the boundaries sit at 33 percent
and 66 percent of the range, not at equal thirds. -/
theorem c7_lowest_third_counterexample :
    getCostCategory (some (166 / 5)) [some 0, some (166 / 5), some 100] =
        "medium" ∧
      ((166 : ℚ) / 5) < 0 + (100 - 0) / 3 := by
  constructor
  · norm_num [getCostCategory, List.insertionSort, List.orderedInsert]
  · norm_num

/-- C7 (amended): for a selection whose valid costs have minimum lo and
maximum hi with lo < hi, the category of a cost c is computed from (and
only from) those costs: low when c ≤ lo + 0.33(hi - lo), high when
c ≥ lo + 0.66(hi - lo), medium otherwise — approximate thirds with
boundaries at 33 percent and 66 percent of the observed range, which shift
as the selection changes. -/
theorem c7_cost_category_thresholds (c : ℚ) (allCosts : List (Option ℚ))
    (lo hi : ℚ) (hlo : lo ∈ allCosts.filterMap id)
    (hhi : hi ∈ allCosts.filterMap id)
    (hmin : ∀ x ∈ allCosts.filterMap id, lo ≤ x)
    (hmax : ∀ x ∈ allCosts.filterMap id, x ≤ hi) (hlt : lo < hi) :
    getCostCategory (some c) allCosts =
      if c ≤ lo + (hi - lo) * (33 / 100) then "low"
      else if lo + (hi - lo) * (66 / 100) ≤ c then "high"
      else "medium" := by
  have hlen : ¬(allCosts.length = 0) := by
    intro h0
    have h1 := List.length_eq_zero.1 h0
    subst h1
    simp at hlo
  have hlen2 : ¬((allCosts.filterMap id).length = 0) := by
    intro h0
    rw [List.length_eq_zero.1 h0] at hlo
    simp at hlo
  simp only [getCostCategory, if_neg hlen, if_neg hlen2]
  have hperm : List.Perm (List.insertionSort (· ≤ ·) (allCosts.filterMap id))
      (allCosts.filterMap id) := List.perm_insertionSort _ _
  have hsorted : List.Sorted (· ≤ ·)
      (List.insertionSort (· ≤ ·) (allCosts.filterMap id)) :=
    List.sorted_insertionSort _ _
  have hsnil : List.insertionSort (· ≤ ·) (allCosts.filterMap id) ≠ [] := by
    intro h0
    rw [h0] at hperm
    rw [hperm.symm.eq_nil] at hlo
    simp at hlo
  obtain ⟨a, t, hat⟩ := List.exists_cons_of_ne_nil hsnil
  have hhead : (List.insertionSort (· ≤ ·)
      (allCosts.filterMap id)).headD 0 = lo := by
    rw [hat, List.headD_cons]
    have ha_mem : a ∈ allCosts.filterMap id := hperm.subset (by rw [hat]; simp)
    have h1 : lo ≤ a := hmin a ha_mem
    have hlo_s : lo ∈ List.insertionSort (· ≤ ·) (allCosts.filterMap id) :=
      hperm.mem_iff.2 hlo
    rw [hat] at hlo_s
    rcases List.mem_cons.1 hlo_s with heq | hmem'
    · rw [heq]
    · have h2 : a ≤ lo := List.rel_of_sorted_cons (hat ▸ hsorted) lo hmem'
      exact le_antisymm h2 h1
  have hlast : (List.insertionSort (· ≤ ·)
      (allCosts.filterMap id)).getLastD 0 = hi := by
    have h1 : (List.insertionSort (· ≤ ·)
        (allCosts.filterMap id)).getLastD 0 ≤ hi :=
      hmax _ (hperm.subset (getLastD_mem _ 0 hsnil))
    have h2 : hi ≤ (List.insertionSort (· ≤ ·)
        (allCosts.filterMap id)).getLastD 0 :=
      sorted_getLastD_ge _ 0 hsorted hi (hperm.mem_iff.2 hhi)
    exact le_antisymm h1 h2
  rw [hhead, hlast, if_neg (ne_of_lt hlt)]

theorem c7_cost_category_thresholds_witness :
    getCostCategory (some 10) [some 0, some 10, some 100] =
      if (10 : ℚ) ≤ 0 + (100 - 0) * (33 / 100) then "low"
      else if 0 + (100 - 0) * (66 / 100) ≤ (10 : ℚ) then "high"
      else "medium" :=
  c7_cost_category_thresholds 10 [some 0, some 10, some 100] 0 100
    (by norm_num) (by norm_num) (by norm_num) (by norm_num) (by norm_num)

/-- C8 counterexample: for the query knee, hospital exH2 carries the query
as a substring of a treatment key, yet searchHospitals drops it because
another hospital already matches on name/city; so the result is not the
set of hospitals matching on name, city or some treatment key. -/
theorem c8_two_phase_counterexample :
    searchHospitals [exH1, exH2] "knee" = [exH1] ∧
      strIncludes (strLower (exH2.NAME ++ " " ++ exH2.CITY)) "knee" = false ∧
      strIncludes (strLower "Knee Replacement") "knee" = true :=
  ⟨by decide, by decide, by decide⟩

/-- C8 (amended): searchHospitals is pure (the result is a sublist of the
stored list, which is not modified) and two-phase: an empty query returns
the whole list; otherwise the query is lowercased and split on spaces, and
a hospital is returned exactly when some term occurs in its lowercased
name/city text, or no hospital at all matches on name/city and some term
occurs in one of its lowercased treatment keys. -/
theorem c8_searchHospitals_two_phase (data : List Hospital) (query : String) :
    searchHospitals data "" = data ∧
      List.Sublist (searchHospitals data query) data ∧
      (query ≠ "" →
        ∀ h, h ∈ searchHospitals data query ↔
          (h ∈ data ∧
            (matchesNameCity (splitSpaces (strLower query)) h = true ∨
              ((∀ h' ∈ data,
                  matchesNameCity (splitSpaces (strLower query)) h' = false) ∧
                matchesTreatment (splitSpaces (strLower query)) h = true)))) := by
  refine ⟨rfl, ?_, ?_⟩
  · by_cases hq : query = ""
    · simp [searchHospitals, hq]
    · simp only [searchHospitals, if_neg hq]
      by_cases hf : 0 < (data.filter
          (matchesNameCity (splitSpaces (strLower query)))).length
      · rw [if_pos hf]
        exact List.filter_sublist data
      · rw [if_neg hf]
        exact List.filter_sublist data
  · intro hq h
    simp only [searchHospitals, if_neg hq]
    by_cases hf : 0 < (data.filter
        (matchesNameCity (splitSpaces (strLower query)))).length
    · rw [if_pos hf]
      rw [List.mem_filter]
      constructor
      · rintro ⟨hmem, hmc⟩
        exact ⟨hmem, Or.inl hmc⟩
      · rintro ⟨hmem, hmc | ⟨hall, _⟩⟩
        · exact ⟨hmem, hmc⟩
        · exfalso
          obtain ⟨x, hx⟩ := List.exists_mem_of_length_pos hf
          have hx2 := List.mem_filter.1 hx
          rw [hall x hx2.1] at hx2
          exact absurd hx2.2 (by simp)
    · rw [if_neg hf]
      have hnil : data.filter (matchesNameCity (splitSpaces (strLower query)))
          = [] := by
        rcases List.eq_nil_or_concat
            (data.filter (matchesNameCity (splitSpaces (strLower query)))) with
          hnil | ⟨l', a, heq⟩
        · exact hnil
        · exfalso
          apply hf
          rw [heq]
          simp
      have hall : ∀ h' ∈ data,
          matchesNameCity (splitSpaces (strLower query)) h' = false := by
        intro h' hh'
        by_cases hc : matchesNameCity (splitSpaces (strLower query)) h' = true
        · exfalso
          have hmem : h' ∈ data.filter
              (matchesNameCity (splitSpaces (strLower query))) :=
            List.mem_filter.2 ⟨hh', hc⟩
          rw [hnil] at hmem
          exact absurd hmem (List.not_mem_nil h')
        · exact Bool.eq_false_iff.2 hc
      rw [List.mem_filter]
      constructor
      · rintro ⟨hmem, hmt⟩
        exact ⟨hmem, Or.inr ⟨hall, hmt⟩⟩
      · rintro ⟨hmem, hmc | ⟨_, hmt⟩⟩
        · rw [hall h hmem] at hmc
          exact absurd hmc (by simp)
        · exact ⟨hmem, hmt⟩

theorem c8_searchHospitals_two_phase_witness :
    searchHospitals [exH1, exH2] "" = [exH1, exH2] ∧
      (exH1 ∈ searchHospitals [exH1, exH2] "knee" ↔
        (exH1 ∈ [exH1, exH2] ∧
          (matchesNameCity (splitSpaces (strLower "knee")) exH1 = true ∨
            ((∀ h' ∈ [exH1, exH2],
                matchesNameCity (splitSpaces (strLower "knee")) h' = false) ∧
              matchesTreatment (splitSpaces (strLower "knee")) exH1 = true)))) :=
  ⟨(c8_searchHospitals_two_phase [exH1, exH2] "").1,
   (c8_searchHospitals_two_phase [exH1, exH2] "knee").2.2 (by decide) exH1⟩

/-- C9 counterexample: in the part_008 variant the unsupported-API failure
rejects instead of resolving with the default coordinate, and in the
data-service.js variant even the error-callback failure rejects; so not
every geolocation failure falls back to the default coordinate. -/
theorem c9_no_fallback_counterexample :
    (getUserLocation GeoOutcome.unsupported).isOk = false ∧
      (getUserLocationDS GeoOutcome.failure).isOk = false :=
  ⟨rfl, rfl⟩

/-- C9 (amended): only the error callback of the part_008 variant falls
back to the hardcoded coordinate (39.8283, -98.5795); the unsupported-API
case rejects there, and the data-service.js variant rejects on every
failure, its callers catching the rejection and keeping no location. -/
theorem c9_geolocation_fallback :
    getUserLocation GeoOutcome.failure = Except.ok ⟨39.8283, -98.5795⟩ ∧
      (getUserLocation GeoOutcome.unsupported).isOk = false ∧
      (getUserLocationDS GeoOutcome.failure).isOk = false ∧
      (getUserLocationDS GeoOutcome.unsupported).isOk = false ∧
      (∀ la lo, getUserLocation (GeoOutcome.position la lo) =
        Except.ok ⟨la, lo⟩) :=
  ⟨rfl, rfl, rfl, rfl, fun _ _ => rfl⟩

end HCC
